import Mathlib

/-!
Verification of the docker-fs container filesystem adapter.

The Go sources are embedded shallowly:
* `goClean`, `goDir`, `goBase`, `goJoin`, `goSplit` model the `path/filepath`
  library functions used by the adapter (slash-separated, Unix rules);
* `WasRemoved`, `ChangesInDir`, `fetchFsChanges`, `parseContainterContent`
  model `lib/dockerfs/changes.go` and `lib/dockerfs/mng.go`;
* `Lookup`, `Create`, `Readdir`, `DirGetattr` model the FUSE `Dir` node;
* `SaveFile` models the tar upload path of the docker manager.

Strings are modelled at the level of their character lists (`String.data`),
which coincides byte-for-byte with Go strings on the ASCII paths involved.
-/

namespace DockerFS

/-! ## Path model: Go `path/filepath` on Unix -/

/-- `true` iff the path starts with a slash (Go: `path[0] == '/'`). -/
def isRooted (l : List Char) : Bool :=
  match l with
  | '/' :: _ => true
  | _ => false

/-- Extend the first segment of a split with a leading character. -/
def consSeg (c : Char) : List (List Char) → List (List Char)
  | [] => [[c]]
  | s :: ss => (c :: s) :: ss

/-- Split a character list on `'/'` separators (used to model `Clean`).
`splitSl` never returns the empty list. -/
def splitSl : List Char → List (List Char)
  | [] => [[]]
  | c :: rest => if c = '/' then [] :: splitSl rest else consSeg c (splitSl rest)

/-- Join segments back with `'/'` separators. -/
def joinSl : List (List Char) → List Char
  | [] => []
  | [s] => s
  | s :: rest => s ++ '/' :: joinSl rest

/-- One step of Go `filepath.Clean`'s element processing: skip empty and `.`
segments, let `..` pop a previous segment (dropped entirely at the root of a
rooted path, stacked for relative paths), push everything else.  The
accumulator holds the output segments in reverse. -/
def cleanPush (rooted : Bool) (acc : List (List Char)) (seg : List Char) : List (List Char) :=
  if seg = [] ∨ seg = ['.'] then acc
  else if seg = ['.', '.'] then
    match acc with
    | [] => if rooted then [] else [['.', '.']]
    | a :: tl => if a = ['.', '.'] then seg :: a :: tl else tl
  else seg :: acc

/-- Go `filepath.Clean` (Unix separator). -/
def goClean (s : String) : String :=
  if s.data = [] then "."
  else
    let rooted := isRooted s.data
    let out := ((splitSl s.data).foldl (cleanPush rooted) []).reverse
    if rooted then
      if out = [] then "/" else ⟨'/' :: joinSl out⟩
    else
      if out = [] then "." else ⟨joinSl out⟩

/-- Go `filepath.Split`: split after the final slash; no cleaning. -/
def goSplit (s : String) : String × String :=
  (⟨(s.data.reverse.dropWhile (fun c => c ≠ '/')).reverse⟩,
   ⟨(s.data.reverse.takeWhile (fun c => c ≠ '/')).reverse⟩)

/-- Go `filepath.Dir`: everything up to the final slash, cleaned. -/
def goDir (s : String) : String :=
  goClean ⟨(s.data.reverse.dropWhile (fun c => c ≠ '/')).reverse⟩

/-- Go `filepath.Base`: last element after stripping trailing slashes. -/
def goBase (s : String) : String :=
  if s.data = [] then "."
  else
    let t := (s.data.reverse.dropWhile (fun c => c = '/')).reverse
    let last := (t.reverse.takeWhile (fun c => c ≠ '/')).reverse
    if last = [] then "/" else ⟨last⟩

/-- Go `filepath.Join` on two elements: skip empty elements, join with a
slash, then clean. -/
def goJoin (a b : String) : String :=
  if a = "" then (if b = "" then "" else goClean b)
  else goClean ⟨a.data ++ '/' :: b.data⟩

/-- Go `strings.Index` for a single character, specialised to character
lists; `some i` is the first index of `c`, `none` plays the role of `-1`. -/
def goIndexAux (l : List Char) (c : Char) : Option Nat :=
  match l with
  | [] => none
  | x :: xs => if x = c then some 0 else (goIndexAux xs c).map (· + 1)

/-! ## Mode and type constants -/

/-- `fuse.S_IFDIR`. -/
def S_IFDIR : Nat := 0o040000

/-- `fuse.S_IFREG`. -/
def S_IFREG : Nat := 0o100000

/-- `fuse.S_IFLNK`. -/
def S_IFLNK : Nat := 0o120000

/-- `os.ModeDir` (`1 << 31` in Go's `os.FileMode`). -/
def ModeDir : Nat := 2 ^ 31

/-- `os.ModeSymlink` (`1 << 27` in Go's `os.FileMode`). -/
def ModeSymlink : Nat := 2 ^ 27

/-! ## Changes (`lib/dockerfs/changes.go`) -/

/-- The change kinds `FileModified = 0`, `FileAdded = 1`, `FileRemoved = 2`
of the container diff API. -/
inductive ChangeKind where
  | FileModified
  | FileAdded
  | FileRemoved
deriving DecidableEq

/-- `container.ContainerChangeResponseItem`: one entry of the diff report. -/
structure ContainerChangeResponseItem where
  Path : String
  Kind : ChangeKind
deriving DecidableEq

/-- `WasRemoved` from `changes.go`: whether `path` occurs in the change list
with kind `FileRemoved`. -/
def WasRemoved (path : String) (c : List ContainerChangeResponseItem) : Bool :=
  c.any (fun ch => decide (ch.Path = path ∧ ch.Kind = ChangeKind.FileRemoved))

/-! ## Changes cache (`lib/dockerfs/mng.go`) -/

/-- `fsChange`: a diff entry held by the manager; `mode` starts at the zero
value and is populated from a stat before the entry is returned. -/
structure fsChange where
  Path : String
  Kind : ChangeKind
  mode : Nat
deriving DecidableEq

/-- The changes-cache portion of `Mng`'s state: the cached entries (`none`
models the Go `nil` slice before the first fetch), the time of the last
successful refresh and the refresh interval.  Times are in seconds. -/
structure MngState where
  changes : Option (List fsChange)
  changesUpdated : Nat
  changesUpdateInterval : Nat
deriving DecidableEq

/-- `NewMng`: fresh manager state with the default 30-second interval. -/
def NewMng : MngState :=
  { changes := none, changesUpdated := 0, changesUpdateInterval := 30 }

/-- Failure modes of a diff refresh: transport error, unexpected HTTP
status, or undecodable body. -/
inductive DiffError where
  | transport
  | badStatus (code : Nat)
  | decode
deriving DecidableEq

/-- The observable outcome of the `GET /containers/{id}/changes` request:
HTTP status plus the JSON-decoded body (`Except.error` models a body that
fails to decode). -/
structure DiffResponse where
  status : Nat
  body : Except Unit (List fsChange)

/-- `Mng.fetchFsChanges`: issue the diff request; on HTTP error or non-200
status or decode failure return the error leaving the state untouched, on
success replace the cached entries and the refresh timestamp. -/
def fetchFsChanges (m : MngState) (now : Nat) (resp : Except Unit DiffResponse) :
    Except DiffError MngState :=
  match resp with
  | .error _ => .error .transport
  | .ok r =>
    if r.status ≠ 200 then .error (.badStatus r.status)
    else
      match r.body with
      | .error _ => .error .decode
      | .ok l => .ok { m with changes := some l, changesUpdated := now }

/-- The loop body of `Mng.ChangesInDir`: skip `FileModified` entries, skip
entries whose cleaned parent directory differs from the (already cleaned)
target directory `d`, stat the survivors through `attrs` to populate `mode`
and drop the ones whose stat fails. -/
def changesFilterStep (attrs : String → Option Nat) (d : String)
    (acc : List fsChange) (ch : fsChange) : List fsChange :=
  if ch.Kind = ChangeKind.FileModified then acc
  else if goClean (goDir ch.Path) ≠ d then acc
  else
    match attrs ch.Path with
    | some m => acc ++ [{ ch with mode := m }]
    | none => acc

/-- `Mng.ChangesInDir`: under the cache mutex, refresh the cache when it is
empty or stale (propagating a failed refresh without touching the state),
then filter the cached entries for direct children of `dir`.  The result is
the returned list, the state after the call, and the number of diff
requests issued (0 or 1). -/
def ChangesInDir (m : MngState) (now : Nat) (resp : Except Unit DiffResponse)
    (attrs : String → Option Nat) (dir : String) :
    Except DiffError (List fsChange) × MngState × Nat :=
  if m.changes = none ∨ now > m.changesUpdated + m.changesUpdateInterval then
    match fetchFsChanges m now resp with
    | .error e => (.error e, m, 1)
    | .ok m' =>
      (.ok ((m'.changes.getD []).foldl (changesFilterStep attrs (goClean dir)) []), m', 1)
  else
    (.ok ((m.changes.getD []).foldl (changesFilterStep attrs (goClean dir)) []), m, 0)

/-! ## Snapshot parsing (`parseContainterContent` in `lib/dockerfs/mng.go`) -/

/-- The tar entry types the parser distinguishes. -/
inductive TarType where
  | TypeReg
  | TypeRegA
  | TypeDir
  | TypeSymlink
  | TypeOther
deriving DecidableEq

/-- The tar header fields consumed by the adapter. -/
structure TarHeader where
  Name : String
  Typeflag : TarType
  Mode : Nat
  Linkname : String
deriving DecidableEq

/-- Association-list update with Go map semantics: the new binding replaces
any previous binding of the same key. -/
def insertC (m : List (String × Nat)) (k : String) (v : Nat) : List (String × Nat) :=
  (k, v) :: m.filter (fun kv => kv.1 ≠ k)

/-- Association-list lookup. -/
def lookupC (m : List (String × Nat)) (k : String) : Option Nat :=
  (m.find? (fun kv => decide (kv.1 = k))).map Prod.snd

/-- `parseContainterContent`: walk the export tar; regular files are
recorded under `/` + cleaned name with their mode, directories are skipped,
every other entry type (symlinks included) is dropped with a log line. -/
def parseContainterContent (hdrs : List TarHeader) : List (String × Nat) :=
  hdrs.foldl
    (fun result hdr =>
      match hdr.Typeflag with
      | .TypeReg => insertC result ("/" ++ goClean hdr.Name) hdr.Mode
      | .TypeRegA => insertC result ("/" ++ goClean hdr.Name) hdr.Mode
      | _ => result)
    []

/-! ## FUSE adapter (`Dir` node, `src/unnamed/part_001`) -/

/-- `types.ContainerPathStat`: the decoded path-stat header.  `Mode` is a
Go `os.FileMode` value. -/
structure ContainerPathStat where
  Mode : Nat
  LinkTarget : String
  Size : Nat
deriving DecidableEq

/-- Outcome of `GetPathAttrs` (HEAD on the archive endpoint): success,
a 404 (the error whose message ends in "404"), or any other error. -/
inductive StatResult where
  | ok (s : ContainerPathStat)
  | notFound
  | err
deriving DecidableEq

/-- Whether a stat succeeded. -/
def StatResult.isOk : StatResult → Bool
  | .ok _ => true
  | _ => false

/-- The errnos surfaced by the adapter (`OK` stands for errno 0). -/
inductive Errno where
  | OK
  | ENOENT
  | Eio
  | EEXIST
deriving DecidableEq

/-- The node kinds `Lookup` can return: a `fs.MemSymlink` carrying the link
target, a `Dir`, or a `File`, each with its stable inode number. -/
inductive Node where
  | symlink (data : String) (ino : Nat)
  | dir (fullpath : String) (ino : Nat)
  | file (fullpath : String) (ino : Nat)
deriving DecidableEq

/-- `fs.MemSymlink.Readlink` (go-fuse): return the stored target bytes. -/
def Readlink : Node → Option String
  | .symlink data _ => some data
  | _ => none

/-- The writable `File` node materialised by `Dir.Create`. -/
structure FileNode where
  fullpath : String
  write : Bool
  statMode : Nat
deriving DecidableEq

/-- One tar entry of an upload archive. -/
structure TarEntry where
  Name : String
  Size : Nat
  Mode : Nat
  body : List Nat
deriving DecidableEq

/-- A `CopyTo` upload: the target directory and the tar archive sent. -/
structure Upload where
  dir : String
  archive : List TarEntry
deriving DecidableEq

/-- A request issued to the container API: a path stat (HEAD, read-only) or
a tar upload (PUT). -/
inductive Req where
  | statPath (path : String)
  | upload (u : Upload)
deriving DecidableEq

/-- `Dir.Lookup`: join the child name onto the directory path, stat it
live; 404 maps to `ENOENT`, other stat errors to `EIO`; otherwise build a
symlink, directory or file node keyed by the cleaned path's inode.  Also
returns the container requests issued. -/
def Lookup (stat : String → StatResult) (ino : String → Nat)
    (fullpath name : String) : Except Errno Node × List Req :=
  let path := goJoin fullpath name
  match stat path with
  | .notFound => (.error .ENOENT, [.statPath path])
  | .err => (.error .Eio, [.statPath path])
  | .ok attrs =>
    (.ok
      (if attrs.Mode &&& ModeSymlink ≠ 0 then
        Node.symlink attrs.LinkTarget (ino (goClean path))
       else if attrs.Mode &&& ModeDir ≠ 0 then
        Node.dir path (ino (goClean path))
       else
        Node.file path (ino (goClean path))),
     [.statPath path])

/-- `Dir.Create`: probe existence via `Lookup`; success means `EEXIST`, an
errno other than `ENOENT` is propagated, and on `ENOENT` a writable `File`
node carrying the requested mode is materialised without any further
container request. -/
def Create (stat : String → StatResult) (ino : String → Nat)
    (fullpath name : String) (flags mode : Nat) :
    Except Errno (FileNode × Nat) × List Req :=
  let path := goJoin fullpath name
  let probe := Lookup stat ino fullpath name
  match probe.1 with
  | .ok _ => (.error .EEXIST, probe.2)
  | .error e =>
    if e ≠ Errno.ENOENT then (.error e, probe.2)
    else
      (.ok ({ fullpath := path, write := true, statMode := mode }, ino (goClean path)),
       probe.2)

/-- The attributes `Dir.Getattr` fills in. -/
structure AttrOut where
  Uid : Nat
  Gid : Nat
  Mode : Nat
deriving DecidableEq

/-- `Dir.Getattr`: owner is the manager's uid/gid, mode is the literal
`0755`, errno 0, and no container request is made. -/
def DirGetattr (uid gid : Nat) : (AttrOut × Errno) × List Req :=
  (({ Uid := uid, Gid := gid, Mode := 0o755 }, Errno.OK), [])

/-- One directory entry of a `Readdir` result. -/
structure DirEntry where
  Mode : Nat
  Name : String
  Ino : Nat
deriving DecidableEq

/-- The `path` variable of `Dir.Readdir`: the directory's full path with a
trailing slash (the root keeps its single slash). -/
def readdirPath (fullpath : String) : String :=
  if fullpath = "/" then "/" else fullpath ++ "/"

/-- The static-files loop body of `Dir.Readdir`: keep snapshot entries
under `path`, skip an entry whose full path was removed, then either
surface the next path segment as a directory (a slash follows it) or the
basename with its kind read off the snapshot mode's `S_IFLNK` bits. -/
def staticStep (path : String) (changes : List ContainerChangeResponseItem)
    (children : List (String × Nat)) (ent : String × Nat) : List (String × Nat) :=
  if path.data <+: ent.1.data then
    if WasRemoved ent.1 changes = true then children
    else
      match goIndexAux (ent.1.data.drop path.data.length) '/' with
      | some pos =>
        if 0 < pos then
          insertC children ⟨(ent.1.data.drop path.data.length).take pos⟩ S_IFDIR
        else children
      | none =>
        insertC children ⟨ent.1.data.drop path.data.length⟩
          (if ent.2 &&& S_IFLNK = S_IFLNK then S_IFLNK else S_IFREG)
  else children

/-- Translation of a live stat mode into the fuse mode `Readdir` reports
for an added entry: `S_IFDIR` when `os.FileMode.IsDir()`, else `S_IFREG`. -/
def fuseDirMode (m : Nat) : Nat :=
  if m &&& ModeDir ≠ 0 then S_IFDIR else S_IFREG

/-- The added-files loop body of `Dir.Readdir`: for each `FileAdded`
change, stat it live (skipping on any error) and record its basename with
the fuse mode derived from the stat. -/
def addedStep (stat : String → StatResult)
    (children : List (String × Nat)) (ch : ContainerChangeResponseItem) :
    List (String × Nat) :=
  if ch.Kind = ChangeKind.FileAdded then
    match stat ch.Path with
    | .ok s => insertC children (goBase ch.Path) (fuseDirMode s.Mode)
    | _ => children
  else children

/-- `Dir.Readdir`: combine the static snapshot (minus removed paths) with
the added changes, then emit each surviving child with its mode and the
inode of its cleaned full path.  `changes` is the list obtained from
`ChangesInDir` for this directory. -/
def Readdir (static : List (String × Nat)) (changes : List ContainerChangeResponseItem)
    (stat : String → StatResult) (ino : String → Nat) (fullpath : String) :
    List DirEntry :=
  let path := readdirPath fullpath
  let children := static.foldl (staticStep path changes) []
  let children := changes.foldl (addedStep stat) children
  children.map (fun cv =>
    { Mode := cv.2, Name := cv.1, Ino := ino (goClean (goJoin fullpath cv.1)) })

/-! ## Upload path (`dockerMngImpl.SaveFile`, `src/unnamed/part_000`) -/

/-- `SaveFile`: wrap the bytes into a single-entry tar whose header name is
the last path element, size the byte count and mode the node's stat mode,
and upload it to the directory part of the path.  The result is the list
of container requests issued. -/
def SaveFile (path : String) (data : List Nat) (statMode : Nat) : List Req :=
  [Req.upload
    { dir := (goSplit path).1,
      archive := [{ Name := (goSplit path).2, Size := data.length,
                    Mode := statMode, body := data }] }]

/-- Environment model of the container: the effect of a request on the
live path-stat view.  A HEAD stat is read-only; an upload makes every
archived entry stat as a regular file under the target directory. -/
def applyReq (C : String → StatResult) (r : Req) : String → StatResult :=
  match r with
  | .statPath _ => C
  | .upload u => fun p =>
    match u.archive.find? (fun e => decide (goClean (goJoin u.dir e.Name) = p)) with
    | some e => .ok { Mode := e.Mode, LinkTarget := "", Size := e.Size }
    | none => C p

/-! ## Inode allocator

Modelled from the spec: the inode allocator (`Mng.inodes`, spec §4.5) is
referenced by the `Dir` node but its source is not under `src/`.  Per the
spec it maps each cleaned path to a stable 64-bit number, allocating the
next unused id starting at 2 on first sight, with the root `/` fixed at 1. -/

/-- Modelled from the spec: the inode table, an injective map from cleaned
paths to inode numbers plus the next free number. -/
structure InodeTable where
  table : List (String × Nat)
  nextIno : Nat
deriving DecidableEq

/-- Modelled from the spec: the initial table maps the root to inode 1 and
starts allocating at 2. -/
def InodeTable.init : InodeTable :=
  { table := [("/", 1)], nextIno := 2 }

/-- Modelled from the spec: `inodeFor` — return the existing binding of the
path, or allocate the next free number for a first-seen path. -/
def InodeTable.inode (t : InodeTable) (p : String) : Nat × InodeTable :=
  match t.table.find? (fun kv => decide (kv.1 = p)) with
  | some kv => (kv.2, t)
  | none => (t.nextIno, { table := t.table ++ [(p, t.nextIno)], nextIno := t.nextIno + 1 })

/-- Run a sequence of allocations, keeping only the final table. -/
def runInodes (t : InodeTable) (ps : List String) : InodeTable :=
  ps.foldl (fun t q => (t.inode q).2) t

/-- Well-formedness of an inode table: the root is bound to 1, keys are
distinct, every bound number is below the allocation counter, and distinct
keys carry distinct numbers. -/
def InodeTable.Wf (t : InodeTable) : Prop :=
  ("/", 1) ∈ t.table
  ∧ (t.table.map Prod.fst).Nodup
  ∧ (∀ kv ∈ t.table, kv.2 < t.nextIno)
  ∧ (∀ kv ∈ t.table, ∀ kw ∈ t.table, kv.2 = kw.2 → kv.1 = kw.1)

/-! ## Concrete instances used by the scenario claims -/

/-- The export tar of the C6 scenario: a regular file `/etc/hostname` and a
symlink `/bin/sh → busybox`. -/
def tarC6 : List TarHeader :=
  [{ Name := "etc/hostname", Typeflag := .TypeReg, Mode := 0o644, Linkname := "" },
   { Name := "bin/sh", Typeflag := .TypeSymlink, Mode := 0o777, Linkname := "busybox" }]

/-- The snapshot index built from `tarC6`. -/
def snapshotC6 : List (String × Nat) := parseContainterContent tarC6

/-- The live stat view of the C6 container. -/
def statC6 : String → StatResult := fun p =>
  if p = "/bin/sh" then .ok { Mode := ModeSymlink + 0o777, LinkTarget := "busybox", Size := 7 }
  else if p = "/etc/hostname" then .ok { Mode := 0o644, LinkTarget := "", Size := 13 }
  else .notFound

/-- A concrete inode assignment for the scenario claims. -/
def inoC6 : String → Nat := String.length

/-- Snapshot of the C1 counterexample: one file two levels below `/etc`. -/
def cexStatic : List (String × Nat) := [("/etc/x/y", 0o644)]

/-- Changes of the C1 counterexample: the directory `/etc/x` was removed. -/
def cexChanges : List ContainerChangeResponseItem :=
  [{ Path := "/etc/x", Kind := ChangeKind.FileRemoved }]

/-- Snapshot for the C1 witness. -/
def wStatic : List (String × Nat) := [("/etc/gone", 0o644), ("/etc/keep", 0o644)]

/-- Changes for the C1 witness: `gone` removed, `new` and `keep` added. -/
def wChanges : List ContainerChangeResponseItem :=
  [{ Path := "/etc/gone", Kind := ChangeKind.FileRemoved },
   { Path := "/etc/new", Kind := ChangeKind.FileAdded },
   { Path := "/etc/keep", Kind := ChangeKind.FileAdded }]

/-- Live stats for the C1 witness: `new` is a regular file, `keep` is now a
directory. -/
def wStat : String → StatResult := fun p =>
  if p = "/etc/new" then .ok { Mode := 0o644, LinkTarget := "", Size := 2 }
  else if p = "/etc/keep" then .ok { Mode := ModeDir + 0o755, LinkTarget := "", Size := 0 }
  else .notFound

/-- A concrete inode assignment used by witness instances. -/
def inoLen : String → Nat := String.length

/-- A concrete diff body used by witness instances: one added direct child
of `/etc`, one modified entry, one added entry of another directory. -/
def wDiff : List fsChange :=
  [{ Path := "/etc/a", Kind := ChangeKind.FileAdded, mode := 0 },
   { Path := "/etc/b", Kind := ChangeKind.FileModified, mode := 0 },
   { Path := "/other/c", Kind := ChangeKind.FileAdded, mode := 0 }]

/-- Stat oracles for the C7 witness: the probed path exists, is absent, or
fails to stat. -/
def statHit : String → StatResult :=
  fun _ => .ok { Mode := 0o644, LinkTarget := "", Size := 1 }

/-- See `statHit`. -/
def statMiss : String → StatResult := fun _ => .notFound

/-- See `statHit`. -/
def statFail : String → StatResult := fun _ => .err

/-! ## Helper lemmas: strings -/

theorem strExt {s t : String} (h : s.data = t.data) : s = t := by
  cases s; cases t; exact congrArg String.mk h

theorem data_append (a b : String) : (a ++ b).data = a.data ++ b.data := rfl

theorem mk_data (s : String) : (⟨s.data⟩ : String) = s := rfl

theorem ne_dot {a : String} (h : a ≠ ".") : a.data ≠ ['.'] := fun h' => h (strExt h')

theorem ne_dotdot {a : String} (h : a ≠ "..") : a.data ≠ ['.', '.'] := fun h' => h (strExt h')

/-! ## Helper lemmas: takeWhile / dropWhile across a separator -/

theorem takeWhile_append_all {p : Char → Bool} (l : List Char) (x : Char) (ys : List Char)
    (h : ∀ a ∈ l, p a = true) (hx : p x = false) :
    (l ++ x :: ys).takeWhile p = l := by
  induction l with
  | nil => simp [List.takeWhile, hx]
  | cons a t ih =>
    have ha := h a (List.mem_cons_self a t)
    simp only [List.cons_append, List.takeWhile, ha]
    exact congrArg (a :: ·) (ih fun b hb => h b (List.mem_cons_of_mem a hb))

theorem dropWhile_append_all {p : Char → Bool} (l : List Char) (x : Char) (ys : List Char)
    (h : ∀ a ∈ l, p a = true) (hx : p x = false) :
    (l ++ x :: ys).dropWhile p = x :: ys := by
  induction l with
  | nil => simp [List.dropWhile, hx]
  | cons a t ih =>
    have ha := h a (List.mem_cons_self a t)
    simp only [List.cons_append, List.dropWhile, ha]
    exact ih fun b hb => h b (List.mem_cons_of_mem a hb)

/-- `goSplit` on a path ending in a slash-free component. -/
theorem goSplit_eq (xs ys : List Char) (hy : '/' ∉ ys) :
    goSplit ⟨xs ++ '/' :: ys⟩ = (⟨xs ++ ['/']⟩, ⟨ys⟩) := by
  have hall : ∀ a ∈ ys.reverse, (fun c => decide (c ≠ '/')) a = true := by
    intro a ha
    simp only [decide_eq_true_eq]
    exact fun h => hy (h ▸ List.mem_reverse.mp ha)
  have hx : (fun c => decide (c ≠ '/')) '/' = false := by simp
  unfold goSplit
  simp only [List.reverse_append, List.reverse_cons]
  have hassoc : ys.reverse ++ ['/'] ++ xs.reverse = ys.reverse ++ '/' :: xs.reverse := by simp
  rw [hassoc]
  rw [takeWhile_append_all ys.reverse '/' _ hall hx, dropWhile_append_all ys.reverse '/' _ hall hx]
  simp

/-! ## Helper lemmas: splitSl and goClean -/

theorem splitSl_ne_nil (l : List Char) : splitSl l ≠ [] := by
  cases l with
  | nil => simp [splitSl]
  | cons c rest =>
    unfold splitSl
    by_cases hc : c = '/'
    · simp [hc]
    · rw [if_neg hc]
      cases splitSl rest <;> simp [consSeg]

theorem splitSl_append (xs ys : List Char) (h : '/' ∉ xs) :
    splitSl (xs ++ '/' :: ys) = xs :: splitSl ys := by
  induction xs with
  | nil => simp [splitSl]
  | cons c t ih =>
    have hc : c ≠ '/' := fun hc => h (hc ▸ List.mem_cons_self c t)
    have ht : '/' ∉ t := fun hm => h (List.mem_cons_of_mem c hm)
    have h1 : splitSl (c :: (t ++ '/' :: ys)) = consSeg c (splitSl (t ++ '/' :: ys)) := by
      simp [splitSl, hc]
    rw [List.cons_append, h1, ih ht]
    rfl

theorem goIndexAux_decomp (l : List Char) (c : Char) (i : Nat)
    (h : goIndexAux l c = some i) :
    l.take i ++ c :: l.drop (i + 1) = l := by
  induction l generalizing i with
  | nil => simp [goIndexAux] at h
  | cons x xs ih =>
    unfold goIndexAux at h
    by_cases hx : x = c
    · rw [if_pos hx] at h
      cases h
      simp [hx]
    · rw [if_neg hx] at h
      cases hj : goIndexAux xs c with
      | none => rw [hj] at h; simp at h
      | some j =>
        rw [hj] at h
        simp only [Option.map_some'] at h
        cases h
        simpa [List.take, List.drop] using ih j hj

theorem goIndexAux_none (l : List Char) (c : Char) (h : goIndexAux l c = none) :
    c ∉ l := by
  induction l with
  | nil => simp
  | cons x xs ih =>
    unfold goIndexAux at h
    by_cases hx : x = c
    · rw [if_pos hx] at h; simp at h
    · rw [if_neg hx] at h
      intro hm
      rcases List.mem_cons.mp hm with rfl | hm'
      · exact hx rfl
      · cases hj : goIndexAux xs c with
        | none => exact ih hj hm'
        | some j => rw [hj] at h; simp at h

/-- `goClean` of a rooted two-component directory path with a trailing
slash: the trailing slash is normalised away. -/
theorem goClean_two_seg (a b : List Char)
    (ha1 : a ≠ []) (ha2 : '/' ∉ a) (ha3 : a ≠ ['.']) (ha4 : a ≠ ['.', '.'])
    (hb1 : b ≠ []) (hb2 : '/' ∉ b) (hb3 : b ≠ ['.']) (hb4 : b ≠ ['.', '.']) :
    goClean ⟨'/' :: (a ++ '/' :: (b ++ ['/']))⟩ = ⟨'/' :: (a ++ '/' :: b)⟩ := by
  have hsplit : splitSl ('/' :: (a ++ '/' :: (b ++ ['/']))) = [[], a, b, []] := by
    have h1 : splitSl ('/' :: (a ++ '/' :: (b ++ ['/'])))
        = [] :: splitSl (a ++ '/' :: (b ++ ['/'])) := by
      simp [splitSl]
    have h2 : b ++ ['/'] = b ++ '/' :: ([] : List Char) := rfl
    rw [h1, splitSl_append a _ ha2, h2, splitSl_append b _ hb2]
    rfl
  have hfold : ([[], a, b, []].foldl (cleanPush true) []).reverse = [a, b] := by
    have s1 : cleanPush true [] ([] : List Char) = [] := by simp [cleanPush]
    have s2 : cleanPush true [] a = [a] := by
      unfold cleanPush
      rw [if_neg (by simp [ha1, ha3]), if_neg ha4]
    have s3 : cleanPush true [a] b = [b, a] := by
      unfold cleanPush
      rw [if_neg (by simp [hb1, hb3]), if_neg hb4]
    have s4 : cleanPush true [b, a] ([] : List Char) = [b, a] := by simp [cleanPush]
    simp only [List.foldl, s1, s2, s3, s4]
    rfl
  unfold goClean
  rw [if_neg (by simp)]
  have hroot : isRooted ('/' :: (a ++ '/' :: (b ++ ['/']))) = true := rfl
  simp only [hroot, hsplit, hfold, if_true]
  rw [if_neg (by simp)]
  rfl

/-! ## Helper lemmas: the children map (Go map semantics) -/

theorem keys_insertC_nodup {m : List (String × Nat)} {k : String} {v : Nat}
    (h : (m.map Prod.fst).Nodup) : ((insertC m k v).map Prod.fst).Nodup := by
  unfold insertC
  simp only [List.map_cons, List.nodup_cons]
  constructor
  · intro hk
    rcases List.mem_map.mp hk with ⟨kv, hkv, hfst⟩
    have := (List.mem_filter.mp hkv).2
    simp only [decide_eq_true_eq] at this
    exact this hfst
  · exact List.Nodup.sublist (List.Sublist.map Prod.fst (List.filter_sublist m)) h

theorem keys_insertC_not_mem {m : List (String × Nat)} {k n : String} {v : Nat}
    (hne : n ≠ k) (h : n ∉ m.map Prod.fst) : n ∉ (insertC m k v).map Prod.fst := by
  unfold insertC
  simp only [List.map_cons, List.mem_cons]
  rintro (rfl | hm)
  · exact hne rfl
  · rcases List.mem_map.mp hm with ⟨kv, hkv, hfst⟩
    exact h (List.mem_map.mpr ⟨kv, (List.mem_filter.mp hkv).1, hfst⟩)

theorem keys_insertC_self {m : List (String × Nat)} {k : String} {v : Nat} :
    k ∈ (insertC m k v).map Prod.fst := by
  unfold insertC
  simp

theorem keys_insertC_of_mem {m : List (String × Nat)} {k n : String} {v : Nat}
    (h : n ∈ m.map Prod.fst) : n ∈ (insertC m k v).map Prod.fst := by
  by_cases hk : n = k
  · exact hk ▸ keys_insertC_self
  · unfold insertC
    simp only [List.map_cons, List.mem_cons]
    right
    rcases List.mem_map.mp h with ⟨kv, hkv, hfst⟩
    refine List.mem_map.mpr ⟨kv, List.mem_filter.mpr ⟨hkv, ?_⟩, hfst⟩
    simp only [decide_eq_true_eq]
    exact fun hh => hk (hfst ▸ hh ▸ rfl)

theorem lookupC_insertC_self {m : List (String × Nat)} {k : String} {v : Nat} :
    lookupC (insertC m k v) k = some v := by
  unfold lookupC insertC
  simp [List.find?]

theorem find?_filter_ne {m : List (String × Nat)} {k n : String} (hne : n ≠ k) :
    (m.filter (fun kv => kv.1 ≠ k)).find? (fun kv => decide (kv.1 = n))
      = m.find? (fun kv => decide (kv.1 = n)) := by
  induction m with
  | nil => rfl
  | cons kv t ih =>
    by_cases hk : kv.1 = k
    · have hfil : List.filter (fun kv => decide (kv.1 ≠ k)) (kv :: t)
          = List.filter (fun kv => decide (kv.1 ≠ k)) t := by
        simp [List.filter, hk]
      have hfind : List.find? (fun kv => decide (kv.1 = n)) (kv :: t)
          = List.find? (fun kv => decide (kv.1 = n)) t := by
        have hkn : ¬ k = n := fun h => hne h.symm
        have : (fun kv : String × Nat => decide (kv.1 = n)) kv = false := by
          simp [hk, hkn]
        simp [List.find?, this]
      rw [hfil, hfind, ih]
    · have hfil : List.filter (fun kv => decide (kv.1 ≠ k)) (kv :: t)
          = kv :: List.filter (fun kv => decide (kv.1 ≠ k)) t := by
        simp [List.filter, hk]
      rw [hfil]
      by_cases hn : kv.1 = n
      · simp [List.find?, hn]
      · have hp : (fun kv : String × Nat => decide (kv.1 = n)) kv = false := by simp [hn]
        simp only [List.find?, hp]
        exact ih

theorem lookupC_insertC_ne {m : List (String × Nat)} {k n : String} {v : Nat}
    (hne : n ≠ k) : lookupC (insertC m k v) n = lookupC m n := by
  unfold lookupC insertC
  have hkn : ¬ k = n := fun h => hne h.symm
  have hp : (fun kv : String × Nat => decide (kv.1 = n)) (k, v) = false := by
    simp [hkn]
  simp only [List.find?, hp]
  rw [find?_filter_ne hne]

theorem lookupC_mem {m : List (String × Nat)} {n : String} {v : Nat}
    (h : lookupC m n = some v) : (n, v) ∈ m := by
  unfold lookupC at h
  cases hf : m.find? (fun kv => decide (kv.1 = n)) with
  | none => rw [hf] at h; simp at h
  | some kv =>
    rw [hf] at h
    simp only [Option.map_some'] at h
    have h1 : kv.1 = n := by
      have := List.find?_some hf
      simpa using this
    have h2 : kv ∈ m := List.mem_of_find?_eq_some hf
    have : kv = (n, v) := by
      cases h
      exact Prod.ext h1 rfl
    exact this ▸ h2

/-! ## Helper lemmas: foldl over the children map -/

theorem foldl_keys_nodup {α : Type} (step : List (String × Nat) → α → List (String × Nat))
    (l : List α) (m : List (String × Nat))
    (hstep : ∀ m' x, x ∈ l → (m'.map Prod.fst).Nodup → ((step m' x).map Prod.fst).Nodup)
    (h : (m.map Prod.fst).Nodup) : ((l.foldl step m).map Prod.fst).Nodup := by
  induction l generalizing m with
  | nil => exact h
  | cons y t ih =>
    exact ih (step m y)
      (fun m' x hx => hstep m' x (List.mem_cons_of_mem y hx))
      (hstep m y (List.mem_cons_self y t) h)

theorem foldl_keys_not_mem {α : Type} (step : List (String × Nat) → α → List (String × Nat))
    (l : List α) (m : List (String × Nat)) (n : String)
    (hstep : ∀ m' x, x ∈ l → n ∉ m'.map Prod.fst → n ∉ (step m' x).map Prod.fst)
    (h : n ∉ m.map Prod.fst) : n ∉ (l.foldl step m).map Prod.fst := by
  induction l generalizing m with
  | nil => exact h
  | cons y t ih =>
    exact ih (step m y)
      (fun m' x hx => hstep m' x (List.mem_cons_of_mem y hx))
      (hstep m y (List.mem_cons_self y t) h)

theorem foldl_keys_mem {α : Type} (step : List (String × Nat) → α → List (String × Nat))
    (l : List α) (m : List (String × Nat)) (n : String)
    (hstep : ∀ m' x, x ∈ l → n ∈ m'.map Prod.fst → n ∈ (step m' x).map Prod.fst)
    (h : n ∈ m.map Prod.fst) : n ∈ (l.foldl step m).map Prod.fst := by
  induction l generalizing m with
  | nil => exact h
  | cons y t ih =>
    exact ih (step m y)
      (fun m' x hx => hstep m' x (List.mem_cons_of_mem y hx))
      (hstep m y (List.mem_cons_self y t) h)

theorem foldl_keys_set {α : Type} (step : List (String × Nat) → α → List (String × Nat))
    (l : List α) (m : List (String × Nat)) (n : String) (x0 : α) (hx : x0 ∈ l)
    (hset : ∀ m', n ∈ (step m' x0).map Prod.fst)
    (hmono : ∀ m' x, x ∈ l → n ∈ m'.map Prod.fst → n ∈ (step m' x).map Prod.fst) :
    n ∈ (l.foldl step m).map Prod.fst := by
  rcases List.append_of_mem hx with ⟨s, t, rfl⟩
  rw [List.foldl_append, List.foldl_cons]
  exact foldl_keys_mem step t _ n
    (fun m' x hx2 => hmono m' x (List.mem_append_right s (List.mem_cons_of_mem x0 hx2)))
    (hset _)

theorem foldl_lookup_preserve {α : Type} (step : List (String × Nat) → α → List (String × Nat))
    (l : List α) (m : List (String × Nat)) (n : String) (v : Nat)
    (hstep : ∀ m' x, x ∈ l → lookupC m' n = some v → lookupC (step m' x) n = some v)
    (h : lookupC m n = some v) : lookupC (l.foldl step m) n = some v := by
  induction l generalizing m with
  | nil => exact h
  | cons y t ih =>
    exact ih (step m y)
      (fun m' x hx => hstep m' x (List.mem_cons_of_mem y hx))
      (hstep m y (List.mem_cons_self y t) h)

theorem foldl_lookup_set {α : Type} (step : List (String × Nat) → α → List (String × Nat))
    (l : List α) (m : List (String × Nat)) (n : String) (v : Nat) (x0 : α) (hx : x0 ∈ l)
    (hset : ∀ m', lookupC (step m' x0) n = some v)
    (hstep : ∀ m' x, x ∈ l → lookupC m' n = some v → lookupC (step m' x) n = some v) :
    lookupC (l.foldl step m) n = some v := by
  rcases List.append_of_mem hx with ⟨s, t, rfl⟩
  rw [List.foldl_append, List.foldl_cons]
  exact foldl_lookup_preserve step t _ n v
    (fun m' x hx2 => hstep m' x (List.mem_append_right s (List.mem_cons_of_mem x0 hx2)))
    (hset _)

/-! ## Helper lemmas: the Readdir loop bodies -/

theorem staticStep_nodup {path : String} {changes : List ContainerChangeResponseItem}
    {m : List (String × Nat)} {ent : String × Nat}
    (h : (m.map Prod.fst).Nodup) :
    ((staticStep path changes m ent).map Prod.fst).Nodup := by
  unfold staticStep
  split
  · split
    · exact h
    · split
      · split
        · exact keys_insertC_nodup h
        · exact h
      · exact keys_insertC_nodup h
  · exact h

theorem addedStep_nodup {stat : String → StatResult}
    {m : List (String × Nat)} {ch : ContainerChangeResponseItem}
    (h : (m.map Prod.fst).Nodup) :
    ((addedStep stat m ch).map Prod.fst).Nodup := by
  unfold addedStep
  split
  · split
    · exact keys_insertC_nodup h
    · exact h
  · exact h

theorem staticStep_mem {path : String} {changes : List ContainerChangeResponseItem}
    {m : List (String × Nat)} {ent : String × Nat} {n : String}
    (h : n ∈ m.map Prod.fst) :
    n ∈ (staticStep path changes m ent).map Prod.fst := by
  unfold staticStep
  split
  · split
    · exact h
    · split
      · split
        · exact keys_insertC_of_mem h
        · exact h
      · exact keys_insertC_of_mem h
  · exact h

theorem addedStep_mem {stat : String → StatResult}
    {m : List (String × Nat)} {ch : ContainerChangeResponseItem} {n : String}
    (h : n ∈ m.map Prod.fst) :
    n ∈ (addedStep stat m ch).map Prod.fst := by
  unfold addedStep
  split
  · split
    · exact keys_insertC_of_mem h
    · exact h
  · exact h

theorem readdirPath_append_data (d n : String) :
    (readdirPath d ++ n).data = (readdirPath d).data ++ n.data := rfl

theorem readdirPath_append_slash_data (d n : String) :
    (readdirPath d ++ n ++ "/").data = (readdirPath d).data ++ n.data ++ ['/'] := by
  simp [data_append]

/-- The static loop never surfaces the name `n` when the full path
`readdirPath d ++ n` was removed, provided no strictly deeper snapshot
entry lies below that path (the directory-synthesis branch). -/
theorem staticStep_not_mem {d : String} {changes : List ContainerChangeResponseItem}
    {m : List (String × Nat)} {ent : String × Nat} {n : String}
    (hrem : WasRemoved (readdirPath d ++ n) changes = true)
    (hdeep : ¬ ((readdirPath d ++ n ++ "/").data <+: ent.1.data))
    (h : n ∉ m.map Prod.fst) :
    n ∉ (staticStep (readdirPath d) changes m ent).map Prod.fst := by
  unfold staticStep
  by_cases hpre : (readdirPath d).data <+: ent.1.data
  · rw [if_pos hpre]
    rcases hpre with ⟨t, ht⟩
    by_cases hw : WasRemoved ent.1 changes = true
    · rw [if_pos hw]
      exact h
    · rw [if_neg hw]
      have hsub : ent.1.data.drop (readdirPath d).data.length = t := by
        rw [← ht]
        exact List.drop_left _ _
      cases hidx : goIndexAux (ent.1.data.drop (readdirPath d).data.length) '/' with
      | none =>
        have hkey : n ≠ (⟨ent.1.data.drop (readdirPath d).data.length⟩ : String) := by
          intro hkn
          have hdata : n.data = ent.1.data.drop (readdirPath d).data.length :=
            congrArg String.data hkn
          have : ent.1 = readdirPath d ++ n := by
            apply strExt
            rw [readdirPath_append_data, hdata, ← ht, List.drop_left]
          exact hw (this ▸ hrem)
        exact keys_insertC_not_mem hkey h
      | some pos =>
        dsimp only
        by_cases hpos : 0 < pos
        · rw [if_pos hpos]
          have hkey : n ≠ (⟨(ent.1.data.drop (readdirPath d).data.length).take pos⟩ : String) := by
            intro hkn
            have hdata : n.data = (ent.1.data.drop (readdirPath d).data.length).take pos :=
              congrArg String.data hkn
            have hdec := goIndexAux_decomp _ _ _ hidx
            apply hdeep
            refine ⟨(ent.1.data.drop (readdirPath d).data.length).drop (pos + 1), ?_⟩
            rw [readdirPath_append_slash_data]
            calc (readdirPath d).data ++ n.data ++ ['/']
                  ++ (ent.1.data.drop (readdirPath d).data.length).drop (pos + 1)
                = (readdirPath d).data
                  ++ ((ent.1.data.drop (readdirPath d).data.length).take pos
                      ++ '/' :: (ent.1.data.drop (readdirPath d).data.length).drop (pos + 1)) := by
                  rw [hdata]; simp
              _ = ent.1.data := by rw [hdec, hsub, ht]
          exact keys_insertC_not_mem hkey h
        · rw [if_neg hpos]
          exact h
  · rw [if_neg hpre]
    exact h

/-- The added loop never inserts a name excluded by the hypothesis on the
added basenames. -/
theorem addedStep_not_mem {stat : String → StatResult}
    {m : List (String × Nat)} {ch : ContainerChangeResponseItem} {n : String}
    (hbase : ch.Kind = ChangeKind.FileAdded → (stat ch.Path).isOk = true → goBase ch.Path ≠ n)
    (h : n ∉ m.map Prod.fst) :
    n ∉ (addedStep stat m ch).map Prod.fst := by
  unfold addedStep
  by_cases hk : ch.Kind = ChangeKind.FileAdded
  · rw [if_pos hk]
    cases hs : stat ch.Path with
    | ok s =>
      refine keys_insertC_not_mem ?_ h
      intro hkn
      exact hbase hk (by rw [hs]; rfl) hkn.symm
    | notFound => exact h
    | err => exact h
  · rw [if_neg hk]
    exact h

/-! ## Helper lemmas: inode allocator -/

theorem find?_key_eq {t : List (String × Nat)} {p : String} {kv : String × Nat}
    (h : t.find? (fun kv => decide (kv.1 = p)) = some kv) : kv.1 = p ∧ kv ∈ t := by
  refine ⟨?_, List.mem_of_find?_eq_some h⟩
  have := List.find?_some h
  simpa using this

theorem find?_of_mem_nodup {t : List (String × Nat)} {p : String} {i : Nat}
    (hn : (t.map Prod.fst).Nodup) (hm : (p, i) ∈ t) :
    t.find? (fun kv => decide (kv.1 = p)) = some (p, i) := by
  induction t with
  | nil => cases hm
  | cons kv rest ih =>
    simp only [List.map_cons, List.nodup_cons] at hn
    rcases List.mem_cons.mp hm with heq | hm'
    · rw [← heq]
      simp [List.find?]
    · have hkv : kv.1 ≠ p := by
        intro hp
        exact hn.1 (hp ▸ List.mem_map.mpr ⟨(p, i), hm', rfl⟩)
      have hp : (fun kv : String × Nat => decide (kv.1 = p)) kv = false := by simp [hkv]
      simp only [List.find?, hp]
      exact ih hn.2 hm'

theorem inode_mem (t : InodeTable) (p : String) :
    (p, (t.inode p).1) ∈ (t.inode p).2.table := by
  unfold InodeTable.inode
  cases hf : t.table.find? (fun kv => decide (kv.1 = p)) with
  | some kv =>
    rcases find?_key_eq hf with ⟨h1, h2⟩
    simpa using (show (p, kv.2) ∈ t.table from by rwa [← h1, Prod.mk.eta])
  | none =>
    simp

theorem inode_wf (t : InodeTable) (p : String) (h : t.Wf) : (t.inode p).2.Wf := by
  rcases h with ⟨hroot, hkeys, hbound, hinj⟩
  unfold InodeTable.inode
  cases hf : t.table.find? (fun kv => decide (kv.1 = p)) with
  | some kv =>
    exact ⟨hroot, hkeys, hbound, hinj⟩
  | none =>
    have hnotin : p ∉ t.table.map Prod.fst := by
      intro hp
      rcases List.mem_map.mp hp with ⟨kv, hkv, hfst⟩
      have := List.find?_eq_none.mp hf kv hkv
      simp [hfst] at this
    refine ⟨List.mem_append_left _ hroot, ?_, ?_, ?_⟩
    · simp only [List.map_append, List.map_cons, List.map_nil]
      rw [List.nodup_append]
      refine ⟨hkeys, List.nodup_singleton _, ?_⟩
      intro x hx hx'
      simp only [List.mem_singleton] at hx'
      exact hnotin (hx' ▸ hx)
    · intro kv hkv
      rcases List.mem_append.mp hkv with hl | hr
      · exact Nat.lt_succ_of_lt (hbound kv hl)
      · simp only [List.mem_singleton] at hr
        rw [hr]
        exact Nat.lt_succ_self _
    · intro kv hkv kw hkw hv
      rcases List.mem_append.mp hkv with hl | hr <;>
        rcases List.mem_append.mp hkw with hl' | hr'
      · exact hinj kv hl kw hl' hv
      · simp only [List.mem_singleton] at hr'
        have : kv.2 < t.nextIno := hbound kv hl
        rw [hr'] at hv
        exact absurd hv (Nat.ne_of_lt this)
      · simp only [List.mem_singleton] at hr
        have : kw.2 < t.nextIno := hbound kw hl'
        rw [hr] at hv
        exact absurd hv.symm (Nat.ne_of_lt this)
      · simp only [List.mem_singleton] at hr hr'
        rw [hr, hr']

theorem inode_table_mono (t : InodeTable) (p : String) {q : String} {i : Nat}
    (h : (q, i) ∈ t.table) : (q, i) ∈ (t.inode p).2.table := by
  unfold InodeTable.inode
  cases t.table.find? (fun kv => decide (kv.1 = p)) with
  | some kv => exact h
  | none => exact List.mem_append_left _ h

theorem inode_stable (t : InodeTable) (p : String) (i : Nat)
    (hn : (t.table.map Prod.fst).Nodup) (hm : (p, i) ∈ t.table) :
    (t.inode p).1 = i := by
  unfold InodeTable.inode
  rw [find?_of_mem_nodup hn hm]

theorem inode_inj (t1 : InodeTable) (h1 : t1.Wf) {p : String} {i : Nat}
    (hmem : (p, i) ∈ t1.table) (q : String) (hpq : p ≠ q) : (t1.inode q).1 ≠ i := by
  obtain ⟨hroot, hkeys, hbound, hinj⟩ := h1
  unfold InodeTable.inode
  cases hf : t1.table.find? (fun kv => decide (kv.1 = q)) with
  | some kv =>
    rcases find?_key_eq hf with ⟨hk1, hk2⟩
    intro hv
    have hfst : kv.1 = (p, i).1 := hinj kv hk2 (p, i) hmem hv
    exact hpq (hfst.symm.trans hk1)
  | none =>
    intro hv
    exact Nat.ne_of_gt (hbound (p, i) hmem) hv

theorem runInodes_wf (t : InodeTable) (ps : List String) (h : t.Wf) : (runInodes t ps).Wf := by
  induction ps generalizing t with
  | nil => exact h
  | cons q rest ih => exact ih _ (inode_wf t q h)

theorem runInodes_mem (t : InodeTable) (ps : List String) {q : String} {i : Nat}
    (h : (q, i) ∈ t.table) : (q, i) ∈ (runInodes t ps).table := by
  induction ps generalizing t with
  | nil => exact h
  | cons r rest ih => exact ih _ (inode_table_mono t r h)

/-! ## Helper lemmas: the changes filter and Create -/

theorem changesFilter_sound (attrs : String → Option Nat) (d : String)
    (cs acc : List fsChange)
    (hacc : ∀ a ∈ acc, a.Kind ≠ ChangeKind.FileModified ∧ goClean (goDir a.Path) = d) :
    ∀ a ∈ cs.foldl (changesFilterStep attrs d) acc,
      a.Kind ≠ ChangeKind.FileModified ∧ goClean (goDir a.Path) = d := by
  induction cs generalizing acc with
  | nil => exact hacc
  | cons ch rest ih =>
    refine ih _ ?_
    intro b hb
    unfold changesFilterStep at hb
    by_cases hk : ch.Kind = ChangeKind.FileModified
    · rw [if_pos hk] at hb
      exact hacc b hb
    · rw [if_neg hk] at hb
      by_cases hd : goClean (goDir ch.Path) ≠ d
      · rw [if_pos hd] at hb
        exact hacc b hb
      · rw [if_neg hd] at hb
        cases hattr : attrs ch.Path with
        | none =>
          rw [hattr] at hb
          exact hacc b hb
        | some mv =>
          rw [hattr] at hb
          rcases List.mem_append.mp hb with hmem | hmem
          · exact hacc b hmem
          · rcases List.mem_singleton.mp hmem with rfl
            exact ⟨hk, not_not.mp hd⟩

theorem create_eval_exists {stat : String → StatResult} {ino : String → Nat}
    {d n : String} {fl md : Nat} {s : ContainerPathStat}
    (h : stat (goJoin d n) = StatResult.ok s) :
    Create stat ino d n fl md = (Except.error Errno.EEXIST, [Req.statPath (goJoin d n)]) := by
  simp [Create, Lookup, h]

theorem create_eval_notFound {stat : String → StatResult} {ino : String → Nat}
    {d n : String} {fl md : Nat}
    (h : stat (goJoin d n) = StatResult.notFound) :
    Create stat ino d n fl md
      = (Except.ok ({ fullpath := goJoin d n, write := true, statMode := md },
                    ino (goClean (goJoin d n))),
         [Req.statPath (goJoin d n)]) := by
  simp [Create, Lookup, h]

theorem create_eval_err {stat : String → StatResult} {ino : String → Nat}
    {d n : String} {fl md : Nat}
    (h : stat (goJoin d n) = StatResult.err) :
    Create stat ino d n fl md = (Except.error Errno.Eio, [Req.statPath (goJoin d n)]) := by
  simp [Create, Lookup, h]

/-! ## Claims -/

/-- C2: every change returned by `ChangesInDir(d)` has kind `Added` or
`Removed` (never `Modified`), and the cleaned parent directory of its path
equals the cleaned `d`. -/
theorem C2_changes_in_dir (m : MngState) (now : Nat) (resp : Except Unit DiffResponse)
    (attrs : String → Option Nat) (dir : String) (res : List fsChange)
    (h : (ChangesInDir m now resp attrs dir).1 = Except.ok res) :
    ∀ ch ∈ res, (ch.Kind = ChangeKind.FileAdded ∨ ch.Kind = ChangeKind.FileRemoved)
      ∧ goClean (goDir ch.Path) = goClean dir := by
  have hres : ∃ l : List fsChange, res = l.foldl (changesFilterStep attrs (goClean dir)) [] := by
    unfold ChangesInDir at h
    split at h
    · cases hf : fetchFsChanges m now resp with
      | error e =>
        rw [hf] at h
        exact absurd h (by simp)
      | ok m' =>
        rw [hf] at h
        simp only [Except.ok.injEq] at h
        exact ⟨_, h.symm⟩
    · simp only [Except.ok.injEq] at h
      exact ⟨_, h.symm⟩
  rcases hres with ⟨l, rfl⟩
  intro ch hch
  have hp := changesFilter_sound attrs (goClean dir) l [] (by intro a ha; cases ha) ch hch
  refine ⟨?_, hp.2⟩
  cases hK : ch.Kind with
  | FileModified => exact absurd hK hp.1
  | FileAdded => exact Or.inl rfl
  | FileRemoved => exact Or.inr rfl

/-- Witness for C2 at a concrete diff: the surviving change `/etc/a` is
`Added` and its cleaned parent is the cleaned directory. -/
theorem C2_witness :
    (({ Path := "/etc/a", Kind := ChangeKind.FileAdded, mode := 420 } : fsChange).Kind
        = ChangeKind.FileAdded
      ∨ ({ Path := "/etc/a", Kind := ChangeKind.FileAdded, mode := 420 } : fsChange).Kind
        = ChangeKind.FileRemoved)
    ∧ goClean (goDir "/etc/a") = goClean "/etc" := by
  have h := C2_changes_in_dir NewMng 0 (Except.ok ⟨200, Except.ok wDiff⟩)
    (fun _ => some 420) "/etc"
    [{ Path := "/etc/a", Kind := ChangeKind.FileAdded, mode := 420 }] rfl
    { Path := "/etc/a", Kind := ChangeKind.FileAdded, mode := 420 } (by decide)
  exact h

/-- C4: starting from an empty cache, a call to `ChangesInDir` issues one
diff request and stores the fetched entries; a second call before the
refresh interval has elapsed issues no diff request (even when the diff
endpoint would fail), leaves the state unchanged, and serves the filtered
cached entries. -/
theorem C4_single_refresh (m0 : MngState) (t0 t1 : Nat) (l : List fsChange)
    (attrs : String → Option Nat) (resp2 : Except Unit DiffResponse) (dir : String)
    (hcold : m0.changes = none)
    (hfresh : ¬ t1 > t0 + m0.changesUpdateInterval) :
    ChangesInDir m0 t0 (Except.ok ⟨200, Except.ok l⟩) attrs dir
      = (Except.ok (l.foldl (changesFilterStep attrs (goClean dir)) []),
         { m0 with changes := some l, changesUpdated := t0 }, 1)
    ∧ ChangesInDir { m0 with changes := some l, changesUpdated := t0 } t1 resp2 attrs dir
      = (Except.ok (l.foldl (changesFilterStep attrs (goClean dir)) []),
         { m0 with changes := some l, changesUpdated := t0 }, 0) := by
  constructor
  · unfold ChangesInDir
    rw [if_pos (Or.inl hcold)]
    have hf : fetchFsChanges m0 t0 (Except.ok ⟨200, Except.ok l⟩)
        = Except.ok { m0 with changes := some l, changesUpdated := t0 } := by
      simp [fetchFsChanges]
    rw [hf]
    rfl
  · unfold ChangesInDir
    rw [if_neg ?_]
    · rfl
    · rintro (hcontra | hcontra)
      · exact Option.some_ne_none l hcontra
      · exact hfresh hcontra

/-- Witness for C4: concrete cold start, then a second call 20 seconds
later against a failing endpoint. -/
theorem C4_witness :
    ChangesInDir NewMng 0 (Except.ok ⟨200, Except.ok wDiff⟩) (fun _ => some 420) "/etc"
      = (Except.ok [{ Path := "/etc/a", Kind := ChangeKind.FileAdded, mode := 420 }],
         { changes := some wDiff, changesUpdated := 0, changesUpdateInterval := 30 }, 1)
    ∧ ChangesInDir { changes := some wDiff, changesUpdated := 0, changesUpdateInterval := 30 }
        20 (Except.error ()) (fun _ => some 420) "/etc"
      = (Except.ok [{ Path := "/etc/a", Kind := ChangeKind.FileAdded, mode := 420 }],
         { changes := some wDiff, changesUpdated := 0, changesUpdateInterval := 30 }, 0) := by
  have h := C4_single_refresh NewMng 0 20 wDiff (fun _ => some 420) (Except.error ()) "/etc"
    rfl (by decide)
  exact h

/-- C5: when a refresh is due but the diff fetch fails (transport error or
non-200 status), `ChangesInDir` returns the error with the cached entries
and timestamp untouched; conversely the state can change only when the
fetch succeeded with a 200 response and a decodable body. -/
theorem C5_refresh_failure (m : MngState) (now : Nat) (resp : Except Unit DiffResponse)
    (attrs : String → Option Nat) (dir : String)
    (hstale : m.changes = none ∨ now > m.changesUpdated + m.changesUpdateInterval)
    (hfail : resp = Except.error () ∨ ∃ r, resp = Except.ok r ∧ r.status ≠ 200) :
    (∃ e, ChangesInDir m now resp attrs dir = (Except.error e, m, 1))
    ∧ ∀ (now' : Nat) (resp' : Except Unit DiffResponse) (dir' : String),
        (ChangesInDir m now' resp' attrs dir').2.1 ≠ m →
        ∃ r lst, resp' = Except.ok r ∧ r.status = 200 ∧ r.body = Except.ok lst := by
  constructor
  · rcases hfail with rfl | ⟨r, rfl, hr⟩
    · refine ⟨.transport, ?_⟩
      unfold ChangesInDir
      rw [if_pos hstale]
      rfl
    · refine ⟨.badStatus r.status, ?_⟩
      unfold ChangesInDir
      have hf : fetchFsChanges m now (Except.ok r) = Except.error (.badStatus r.status) := by
        simp [fetchFsChanges, hr]
      rw [if_pos hstale, hf]
  · intro now' resp' dir' hne
    by_cases hc : m.changes = none ∨ now' > m.changesUpdated + m.changesUpdateInterval
    · unfold ChangesInDir at hne
      rw [if_pos hc] at hne
      cases resp' with
      | error u =>
        cases u
        exact absurd rfl hne
      | ok r =>
        by_cases hs : r.status ≠ 200
        · have hf : fetchFsChanges m now' (Except.ok r) = Except.error (.badStatus r.status) := by
            simp [fetchFsChanges, hs]
          rw [hf] at hne
          exact absurd rfl hne
        · have hs' := not_not.mp hs
          cases hb : r.body with
          | error u =>
            have hf : fetchFsChanges m now' (Except.ok r) = Except.error .decode := by
              simp [fetchFsChanges, hs', hb]
            rw [hf] at hne
            exact absurd rfl hne
          | ok lst => exact ⟨r, lst, rfl, hs', hb⟩
    · unfold ChangesInDir at hne
      rw [if_neg hc] at hne
      exact absurd rfl hne

/-- Witness for C5: a stale cache and a transport failure leave a concrete
state untouched. -/
theorem C5_witness :
    ∃ e, ChangesInDir { changes := some [], changesUpdated := 5, changesUpdateInterval := 30 }
        100 (Except.error ()) (fun _ => some 420) "/etc"
      = (Except.error e,
         { changes := some [], changesUpdated := 5, changesUpdateInterval := 30 }, 1) :=
  (C5_refresh_failure { changes := some [], changesUpdated := 5, changesUpdateInterval := 30 }
    100 (Except.error ()) (fun _ => some 420) "/etc"
    (Or.inr (by decide)) (Or.inl rfl)).1

/-- C7: `Dir.Create` probes existence via `Lookup`: a successful probe
yields `EEXIST` with no upload issued (the only container request is the
stat probe), a 404 probe succeeds and materialises a writable `File` node
carrying the requested mode without touching the container, and any other
probe errno (`EIO`) is propagated unchanged. -/
theorem C7_create_probe (stat : String → StatResult) (ino : String → Nat)
    (d n : String) (flags mode : Nat) :
    (∀ s, stat (goJoin d n) = StatResult.ok s →
      Create stat ino d n flags mode
        = (Except.error Errno.EEXIST, [Req.statPath (goJoin d n)]))
    ∧ (stat (goJoin d n) = StatResult.notFound →
      Create stat ino d n flags mode
        = (Except.ok ({ fullpath := goJoin d n, write := true, statMode := mode },
                      ino (goClean (goJoin d n))),
           [Req.statPath (goJoin d n)]))
    ∧ (stat (goJoin d n) = StatResult.err →
      Create stat ino d n flags mode
        = (Except.error Errno.Eio, [Req.statPath (goJoin d n)])) :=
  ⟨fun _ h => create_eval_exists h,
   fun h => create_eval_notFound h,
   fun h => create_eval_err h⟩

/-- Witness for C7: the three probe outcomes at a concrete path. -/
theorem C7_witness :
    Create statHit inoLen "/etc" "a" 0 420
      = (Except.error Errno.EEXIST, [Req.statPath "/etc/a"])
    ∧ Create statMiss inoLen "/etc" "a" 0 420
      = (Except.ok ({ fullpath := "/etc/a", write := true, statMode := 420 }, 6),
         [Req.statPath "/etc/a"])
    ∧ Create statFail inoLen "/etc" "a" 0 420
      = (Except.error Errno.Eio, [Req.statPath "/etc/a"]) := by
  refine ⟨?_, ?_, ?_⟩
  · exact (C7_create_probe statHit inoLen "/etc" "a" 0 420).1
      { Mode := 0o644, LinkTarget := "", Size := 1 } rfl
  · exact (C7_create_probe statMiss inoLen "/etc" "a" 0 420).2.1 rfl
  · exact (C7_create_probe statFail inoLen "/etc" "a" 0 420).2.2 rfl

/-- C10: `Create` checks existence only against the live container: when
the container lacks the path, `Create` succeeds, its requests (a single
read-only stat) leave the container unchanged, and an immediately repeated
`Create` with no intervening flush also succeeds rather than returning
`EEXIST`. -/
theorem C10_create_live_only (C : String → StatResult) (ino : String → Nat)
    (d n : String) (fl md : Nat)
    (h : C (goJoin d n) = StatResult.notFound) :
    (∃ f i, (Create C ino d n fl md).1 = Except.ok (f, i))
    ∧ (Create ((Create C ino d n fl md).2.foldl applyReq C) ino d n fl md).1
        ≠ Except.error Errno.EEXIST
    ∧ ∃ f i, (Create ((Create C ino d n fl md).2.foldl applyReq C) ino d n fl md).1
        = Except.ok (f, i) := by
  have h1 := @create_eval_notFound C ino d n fl md h
  have hreqs : (Create C ino d n fl md).2 = [Req.statPath (goJoin d n)] := by rw [h1]
  have hC : ((Create C ino d n fl md).2.foldl applyReq C) = C := by
    rw [hreqs]
    rfl
  rw [hC, h1]
  exact ⟨⟨_, _, rfl⟩, by simp, ⟨_, _, rfl⟩⟩

/-- Witness for C10: two consecutive creates of `/etc/a` against a
container that lacks it both succeed. -/
theorem C10_witness :
    (∃ f i, (Create statMiss inoLen "/etc" "a" 0 420).1 = Except.ok (f, i))
    ∧ (Create ((Create statMiss inoLen "/etc" "a" 0 420).2.foldl applyReq statMiss)
        inoLen "/etc" "a" 0 420).1 ≠ Except.error Errno.EEXIST
    ∧ ∃ f i, (Create ((Create statMiss inoLen "/etc" "a" 0 420).2.foldl applyReq statMiss)
        inoLen "/etc" "a" 0 420).1 = Except.ok (f, i) :=
  C10_create_live_only statMiss inoLen "/etc" "a" 0 420 rfl

/-- C9 (counterexample): `Dir.Getattr` fills in the literal mode `0755`,
not `0755 ||| S_IFDIR`. -/
theorem C9_counterexample :
    (DirGetattr 1000 1000).1.1.Mode = 0o755
    ∧ (DirGetattr 1000 1000).1.1.Mode ≠ (0o755 ||| S_IFDIR) := by
  decide

/-- C9 (amended): `Dir.Getattr` always succeeds (errno 0) with owner equal
to the mount process's uid/gid and mode the literal `0755` — the `S_IFDIR`
type bits are supplied by the FUSE library from the node's stable
attributes, not by this function — and it performs no container request. -/
theorem C9_getattr (uid gid : Nat) :
    DirGetattr uid gid = (({ Uid := uid, Gid := gid, Mode := 0o755 }, Errno.OK), []) := rfl

/-- C3: flushing bytes `B` with mode `M` to `/a/b/c` produces exactly one
upload, directed at `/a/b` (the literal target carries the trailing slash
`filepath.Split` leaves; it cleans to `/a/b`), whose tar body holds exactly
one regular-file entry named `c` of size `|B|`, mode `M` and content `B`. -/
theorem C3_savefile_upload (a b c : String) (B : List Nat) (M : Nat)
    (ha : a.data ≠ [] ∧ '/' ∉ a.data ∧ a ≠ "." ∧ a ≠ "..")
    (hb : b.data ≠ [] ∧ '/' ∉ b.data ∧ b ≠ "." ∧ b ≠ "..")
    (hc : c.data ≠ [] ∧ '/' ∉ c.data) :
    SaveFile ("/" ++ a ++ "/" ++ b ++ "/" ++ c) B M
      = [Req.upload { dir := "/" ++ a ++ "/" ++ b ++ "/",
                      archive := [{ Name := c, Size := B.length, Mode := M, body := B }] }]
    ∧ goClean ("/" ++ a ++ "/" ++ b ++ "/") = "/" ++ a ++ "/" ++ b := by
  constructor
  · have hpath : ("/" ++ a ++ "/" ++ b ++ "/" ++ c)
        = (⟨('/' :: a.data ++ '/' :: b.data) ++ '/' :: c.data⟩ : String) :=
      strExt (by simp [data_append])
    have hdir : (⟨('/' :: a.data ++ '/' :: b.data) ++ ['/']⟩ : String)
        = "/" ++ a ++ "/" ++ b ++ "/" :=
      strExt (by simp [data_append])
    unfold SaveFile
    rw [hpath, goSplit_eq _ _ hc.2, hdir]
  · have h1 : ("/" ++ a ++ "/" ++ b ++ "/")
        = (⟨'/' :: (a.data ++ '/' :: (b.data ++ ['/']))⟩ : String) :=
      strExt (by simp [data_append])
    have h2 : ("/" ++ a ++ "/" ++ b)
        = (⟨'/' :: (a.data ++ '/' :: b.data)⟩ : String) :=
      strExt (by simp [data_append])
    rw [h1, h2]
    exact goClean_two_seg a.data b.data ha.1 ha.2.1 (ne_dot ha.2.2.1) (ne_dotdot ha.2.2.2)
      hb.1 hb.2.1 (ne_dot hb.2.2.1) (ne_dotdot hb.2.2.2)

/-- Witness for C3: writing the two bytes `hi` to `/a/b/c` with mode 420. -/
theorem C3_witness :
    SaveFile ("/" ++ "a" ++ "/" ++ "b" ++ "/" ++ "c") [104, 105] 420
      = [Req.upload { dir := "/" ++ "a" ++ "/" ++ "b" ++ "/",
                      archive := [{ Name := "c", Size := 2, Mode := 420,
                                    body := [104, 105] }] }]
    ∧ goClean ("/" ++ "a" ++ "/" ++ "b" ++ "/") = "/" ++ "a" ++ "/" ++ "b" := by
  have h := C3_savefile_upload "a" "b" "c" [104, 105] 420
    (by refine ⟨by decide, by decide, by decide, by decide⟩)
    (by refine ⟨by decide, by decide, by decide, by decide⟩)
    (by refine ⟨by decide, by decide⟩)
  exact h

/-- C8 (spec-modelled): the inode allocator is a function of the path —
once a path is bound its number is returned unchanged by every later call,
whatever allocations happen in between; distinct paths receive distinct
numbers; and the root `/` maps to 1. -/
theorem C8_inode_allocator (t : InodeTable) (hwf : t.Wf) (p q : String) (ps : List String) :
    ((runInodes (t.inode p).2 ps).inode p).1 = (t.inode p).1
    ∧ (p ≠ q → ((t.inode p).2.inode q).1 ≠ (t.inode p).1)
    ∧ (t.inode "/").1 = 1 := by
  have hwf1 : (t.inode p).2.Wf := inode_wf t p hwf
  have hmem1 : (p, (t.inode p).1) ∈ (t.inode p).2.table := inode_mem t p
  refine ⟨?_, ?_, ?_⟩
  · have hwfr : (runInodes (t.inode p).2 ps).Wf := runInodes_wf _ ps hwf1
    have hmemr := runInodes_mem (t.inode p).2 ps hmem1
    exact inode_stable _ p _ hwfr.2.1 hmemr
  · intro hpq
    exact inode_inj _ hwf1 hmem1 q hpq
  · exact inode_stable t "/" 1 hwf.2.1 hwf.1

/-- Witness for C8 at the initial table: `/etc` keeps its number across an
interleaved allocation of `/a`, `/bin` gets a different number, and the
root maps to 1. -/
theorem C8_witness :
    ((runInodes (InodeTable.init.inode "/etc").2 ["/a"]).inode "/etc").1
      = (InodeTable.init.inode "/etc").1
    ∧ ((InodeTable.init.inode "/etc").2.inode "/bin").1 ≠ (InodeTable.init.inode "/etc").1
    ∧ (InodeTable.init.inode "/").1 = 1 := by
  have hwf : InodeTable.init.Wf := by
    unfold InodeTable.Wf
    refine ⟨by decide, by decide, by decide, by decide⟩
  have h := C8_inode_allocator InodeTable.init hwf "/etc" "/bin" ["/a"]
  exact ⟨h.1, h.2.1 (by decide), h.2.2⟩

/-- C6 (counterexample): mounting the export with `/etc/hostname` (regular,
0644) and the symlink `/bin/sh → busybox`, `Readdir("/bin")` is empty — it
does not yield `["sh"]`, because `parseContainterContent` drops symlink
entries from the snapshot. -/
theorem C6_counterexample :
    (Readdir snapshotC6 [] statC6 inoC6 "/bin").map DirEntry.Name = []
    ∧ (Readdir snapshotC6 [] statC6 inoC6 "/bin").map DirEntry.Name ≠ ["sh"] := by
  decide

/-- C6 (amended): for that mount, `Readdir("/etc")` yields exactly
`hostname` as a regular file; `Readdir("/bin")` yields nothing since the
export parser drops symlink entries; the symlink still resolves live:
`Lookup("/bin", "sh")` returns a symlink node whose `Readlink` is
`busybox`. -/
theorem C6_scenario :
    snapshotC6 = [("/etc/hostname", 0o644)]
    ∧ Readdir snapshotC6 [] statC6 inoC6 "/etc"
        = [{ Mode := S_IFREG, Name := "hostname", Ino := inoC6 "/etc/hostname" }]
    ∧ Readdir snapshotC6 [] statC6 inoC6 "/bin" = []
    ∧ (Lookup statC6 inoC6 "/bin" "sh").1
        = Except.ok (Node.symlink "busybox" (inoC6 "/bin/sh"))
    ∧ Readlink (Node.symlink "busybox" (inoC6 "/bin/sh")) = some "busybox" :=
  ⟨rfl, rfl, rfl, rfl, rfl⟩

/-- `Readdir` written out as the two folds followed by the entry map. -/
theorem Readdir_eq (static : List (String × Nat)) (changes : List ContainerChangeResponseItem)
    (stat : String → StatResult) (ino : String → Nat) (fullpath : String) :
    Readdir static changes stat ino fullpath
      = (changes.foldl (addedStep stat)
          (static.foldl (staticStep (readdirPath fullpath) changes) [])).map
          (fun cv => { Mode := cv.2, Name := cv.1,
                       Ino := ino (goClean (goJoin fullpath cv.1)) }) := rfl

/-- The names of a `Readdir` result are the keys of the children map. -/
theorem Readdir_names (static : List (String × Nat)) (changes : List ContainerChangeResponseItem)
    (stat : String → StatResult) (ino : String → Nat) (fullpath : String) :
    (Readdir static changes stat ino fullpath).map DirEntry.Name
      = (changes.foldl (addedStep stat)
          (static.foldl (staticStep (readdirPath fullpath) changes) [])).map Prod.fst := by
  rw [Readdir_eq]
  rw [List.map_map]
  rfl

/-- C1 (counterexample): with the snapshot entry `/etc/x/y` and the single
change `(/etc/x, Removed)`, the name `x` — whose full path `/etc/x` appears
as a `Removed` change for `/etc` — still appears in `Readdir("/etc")`,
synthesised as a directory from the deeper snapshot path. -/
theorem C1_counterexample :
    WasRemoved "/etc/x" cexChanges = true
    ∧ "x" ∈ (Readdir cexStatic cexChanges statMiss inoLen "/etc").map DirEntry.Name := by
  decide

/-- C1 (amended): `Readdir(d)` returns no duplicate names.  A `Removed`
change suppresses exactly the snapshot entry with that full path: a name
additionally covered by a deeper snapshot path (synthesised as a
directory) or by an `Added` change can still appear.  An `Added` change
whose live stat succeeds always appears, and when several added basenames
do not collide its entry — mode derived from the live stat — is the one
returned, overriding any entry derived from the snapshot. -/
theorem C1_readdir (static : List (String × Nat)) (changes : List ContainerChangeResponseItem)
    (stat : String → StatResult) (ino : String → Nat) (d : String) :
    ((Readdir static changes stat ino d).map DirEntry.Name).Nodup
    ∧ (∀ n : String,
        WasRemoved (readdirPath d ++ n) changes = true →
        (∀ ent ∈ static, ¬ ((readdirPath d ++ n ++ "/").data <+: ent.1.data)) →
        (∀ ch ∈ changes, ch.Kind = ChangeKind.FileAdded →
          (stat ch.Path).isOk = true → goBase ch.Path ≠ n) →
        n ∉ (Readdir static changes stat ino d).map DirEntry.Name)
    ∧ (∀ ch ∈ changes, ch.Kind = ChangeKind.FileAdded →
        (stat ch.Path).isOk = true →
        goBase ch.Path ∈ (Readdir static changes stat ino d).map DirEntry.Name)
    ∧ (∀ ch ∈ changes, ∀ s : ContainerPathStat, ch.Kind = ChangeKind.FileAdded →
        stat ch.Path = StatResult.ok s →
        (∀ ch2 ∈ changes, ch2.Kind = ChangeKind.FileAdded →
          (stat ch2.Path).isOk = true →
          ch2 = ch ∨ goBase ch2.Path ≠ goBase ch.Path) →
        ({ Mode := fuseDirMode s.Mode, Name := goBase ch.Path,
           Ino := ino (goClean (goJoin d (goBase ch.Path))) } : DirEntry)
          ∈ Readdir static changes stat ino d) := by
  refine ⟨?_, ?_, ?_, ?_⟩
  · rw [Readdir_names]
    apply foldl_keys_nodup (addedStep stat) changes
    · intro m' x hx hm
      exact addedStep_nodup hm
    · apply foldl_keys_nodup (staticStep (readdirPath d) changes) static
      · intro m' x hx hm
        exact staticStep_nodup hm
      · simp
  · intro n hrem hdeep hbase
    rw [Readdir_names]
    apply foldl_keys_not_mem (addedStep stat) changes
    · intro m' ch hch hm
      exact addedStep_not_mem (fun hk hok => hbase ch hch hk hok) hm
    · apply foldl_keys_not_mem (staticStep (readdirPath d) changes) static
      · intro m' ent hent hm
        exact staticStep_not_mem hrem (hdeep ent hent) hm
      · simp
  · intro ch hch hk hok
    rw [Readdir_names]
    obtain ⟨s, hs⟩ : ∃ s, stat ch.Path = StatResult.ok s := by
      cases hstat : stat ch.Path with
      | ok s => exact ⟨s, rfl⟩
      | notFound => rw [hstat] at hok; exact absurd hok (by simp [StatResult.isOk])
      | err => rw [hstat] at hok; exact absurd hok (by simp [StatResult.isOk])
    apply foldl_keys_set (addedStep stat) changes _ _ ch hch
    · intro m'
      unfold addedStep
      rw [if_pos hk, hs]
      exact keys_insertC_self
    · intro m' x hx hm
      exact addedStep_mem hm
  · intro ch hch s hk hs huniq
    rw [Readdir_eq]
    have hlook : lookupC (changes.foldl (addedStep stat)
        (static.foldl (staticStep (readdirPath d) changes) [])) (goBase ch.Path)
        = some (fuseDirMode s.Mode) := by
      apply foldl_lookup_set (addedStep stat) changes _ _ _ ch hch
      · intro m'
        unfold addedStep
        rw [if_pos hk, hs]
        exact lookupC_insertC_self
      · intro m' x hx hl
        unfold addedStep
        by_cases hkx : x.Kind = ChangeKind.FileAdded
        · rw [if_pos hkx]
          cases hsx : stat x.Path with
          | ok s2 =>
            rcases huniq x hx hkx (by rw [hsx]; rfl) with rfl | hne
            · rw [hs] at hsx
              cases hsx
              exact lookupC_insertC_self
            · rw [lookupC_insertC_ne (fun hh => hne hh.symm)]
              exact hl
          | notFound => exact hl
          | err => exact hl
        · rw [if_neg hkx]
          exact hl
    exact List.mem_map.mpr ⟨(goBase ch.Path, fuseDirMode s.Mode), lookupC_mem hlook, rfl⟩

/-- Witness for C1 at a concrete directory: the removed file `gone` does
not appear, the added file `new` does, and for `keep` — present in the
snapshot as a regular file but also an `Added` change statting as a
directory — the entry derived from the change wins. -/
theorem C1_witness :
    "gone" ∉ (Readdir wStatic wChanges wStat inoLen "/etc").map DirEntry.Name
    ∧ "new" ∈ (Readdir wStatic wChanges wStat inoLen "/etc").map DirEntry.Name
    ∧ ({ Mode := S_IFDIR, Name := "keep", Ino := inoLen "/etc/keep" } : DirEntry)
        ∈ Readdir wStatic wChanges wStat inoLen "/etc" := by
  have h := C1_readdir wStatic wChanges wStat inoLen "/etc"
  refine ⟨?_, ?_, ?_⟩
  · exact h.2.1 "gone" (by decide) (by decide) (by decide)
  · exact h.2.2.1 { Path := "/etc/new", Kind := ChangeKind.FileAdded } (by decide) rfl rfl
  · exact h.2.2.2 { Path := "/etc/keep", Kind := ChangeKind.FileAdded } (by decide)
      { Mode := ModeDir + 0o755, LinkTarget := "", Size := 0 } rfl rfl (by decide)

end DockerFS
